import Mathlib

/-!
Verification development for the commit-collection pipeline
(src/collect/collect_commits.py).

The Python source is shallowly embedded below.  Python dictionaries are
modelled as association lists preserving insertion order (a plain set
replaces a value in place, keeping the key position; a fresh key is
appended at the end, matching CPython insertion-order semantics).
`datetime` values from the forge API are UTC with second resolution and
are modelled structurally; a `datetime` produced by `strptime` plus
`timedelta` arithmetic is modelled by its POSIX timestamp in seconds.
Fallible Python code is modelled with `Except Unit`, the error standing
for the exception escaping the corresponding scope.
-/

/-- Civil calendar date, as produced by `datetime.date()`. -/
structure CalDate where
  year : Int
  month : Int
  day : Int
deriving DecidableEq, Repr

/-- UTC timestamp with second resolution, as held by the forge API
client for commit author / committer dates. -/
structure UTCTime where
  year : Int
  month : Int
  day : Int
  hour : Int
  minute : Int
  second : Int
deriving DecidableEq, Repr

/-- Truncation of a timestamp to its calendar date: `dt.date()`.
The commit date travels as `dt.isoformat()` and is recovered with
`dateutil.parser.parse`; that round trip returns the same instant, so
the composition `parse(dt.isoformat()).date()` is modelled directly as
this truncation. -/
def dateOf (t : UTCTime) : CalDate :=
  { year := t.year, month := t.month, day := t.day }

/-- Day number of a civil date counted from the Unix epoch
(standard days-from-civil algorithm), modelling the number of days
between `datetime.strptime(d, Y-m-d)` and the epoch. -/
def dayNum (d : CalDate) : Int :=
  let y := if d.month ≤ 2 then d.year - 1 else d.year
  let era := Int.fdiv y 400
  let yoe := y - era * 400
  let mp := (d.month + 9) % 12
  let doy := Int.fdiv (153 * mp + 2) 5 + d.day - 1
  let doe := yoe * 365 + Int.fdiv yoe 4 - Int.fdiv yoe 100 + doy
  era * 146097 + doe - 719468

/-- Two-digit zero padding used by `strftime` for months and days. -/
def pad2 (n : Int) : String :=
  if n < 10 then "0" ++ toString n else toString n

/-- Rendering of a civil date as `YYYY-MM-DD`, modelling
`strftime(Y-m-d)` for the four-digit years of this application. -/
def dateStr (d : CalDate) : String :=
  toString d.year ++ "-" ++ pad2 d.month ++ "-" ++ pad2 d.day

/-- Source: `validate_date_range` (src/collect/collect_commits.py,
lines 62-73).  `start` is midnight UTC of the start day; `end` is
midnight of the end day plus one day minus one second; the check raises
`ValueError` when `(end - start).days > 10`, where `timedelta.days` is
floor division of the total seconds by 86400.  Datetimes are
represented by their POSIX timestamps. -/
def validate_date_range (start_date end_date : CalDate) : Except String (Int × Int) :=
  let start := dayNum start_date * 86400
  let e := dayNum end_date * 86400 + 86400 - 1
  if Int.fdiv (e - start) 86400 > 10 then
    Except.error "Maximum range of 10 days allowed"
  else
    Except.ok (start, e)

/-- Whether an `Except` computation succeeded. -/
def isOkE {ε α : Type} : Except ε α → Bool
  | Except.ok _ => true
  | Except.error _ => false

/-- Quota fields that may or may not be exposed by one shape of the
rate-limit probe response (`remaining`, `reset`, `limit` attributes;
`reset` is a timestamp, modelled in POSIX seconds). -/
structure RateFields where
  remaining : Option Int
  reset : Option Int
  limit : Option Int
deriving DecidableEq, Repr

/-- Rate-limit probe response.  The code reads `rate_limit.rate.*`
with `getattr` defaults (the `.rate` attribute itself is present in the
client versions this code supports, per the compatibility comment in
the source, while its subfields may be absent), and falls back to
`getattr(rate_limit, "core", object())`, whose subfields default to
`0` for `remaining` and `None` for `reset` when `core` is absent. -/
structure RateLimitResp where
  rate : RateFields
  core : Option RateFields
deriving DecidableEq, Repr

/-- Effective remaining quota computed by `check_rate_limit`
(src/collect/collect_commits.py, lines 103-111): the primary
`rate.remaining` field, else the secondary `core.remaining`, else 0. -/
def effectiveRemaining (resp : RateLimitResp) : Int :=
  match resp.rate.remaining with
  | some r => r
  | none =>
    match resp.core with
    | some cf => (cf.remaining).getD 0
    | none => 0

/-- Effective reset time computed by `check_rate_limit`: taken from the
primary field group when `rate.remaining` is present, else from
`core`; `None` when unavailable. -/
def effectiveReset (resp : RateLimitResp) : Option Int :=
  match resp.rate.remaining with
  | some _ => resp.rate.reset
  | none =>
    match resp.core with
    | some cf => cf.reset
    | none => none

/-- Source: `check_rate_limit` (src/collect/collect_commits.py, lines
99-129).  Returns the number of seconds the call sleeps, or `none`
when it does not sleep.  The code sleeps only when
`remaining < min_remaining and reset_time` holds (a `datetime` is
always truthy, so the truthiness test is `reset_time is not None`) and
the computed wait `reset - now + 10` is positive.  The post-sleep
re-query only logs the refreshed quota and is not modelled. -/
def check_rate_limit_sleep (resp : RateLimitResp) (min_remaining now : Int) : Option Int :=
  let remaining := effectiveRemaining resp
  match effectiveReset resp with
  | none => none
  | some reset =>
    if remaining < min_remaining then
      let wait := reset - now + 10
      if wait > 0 then some wait else none
    else none

theorem fdiv_days (k : Int) : Int.fdiv (k * 86400 + 86399) 86400 = k := by
  rw [Int.fdiv_eq_ediv _ (by norm_num : (0 : Int) ≤ 86400)]
  omega

/-- Claim C9, counterexample: the pair 2025-01-01 / 2025-01-11 spans 11
calendar days inclusively (more than 10), and its end-minus-start
duration in seconds also exceeds 10 days, yet `validate_date_range`
accepts it instead of raising. -/
theorem window_eleven_days_accepted :
    dayNum ⟨2025, 1, 11⟩ - dayNum ⟨2025, 1, 1⟩ + 1 = 11 ∧
    (dayNum ⟨2025, 1, 11⟩ * 86400 + 86399) - dayNum ⟨2025, 1, 1⟩ * 86400 > 10 * 86400 ∧
    validate_date_range ⟨2025, 1, 1⟩ ⟨2025, 1, 11⟩ =
      Except.ok (dayNum ⟨2025, 1, 1⟩ * 86400, dayNum ⟨2025, 1, 11⟩ * 86400 + 86399) := by
  refine ⟨by decide, by decide, ?_⟩
  rfl

/-- Claim C9, amended: `validate_date_range` raises exactly when the
end day lies more than 10 calendar days after the start day, so
inclusive windows of up to 11 days are accepted; every accepted pair
returns the start at 00:00:00 UTC of the start day and the end at
23:59:59 UTC of the end day. -/
theorem window_span_check (sd ed : CalDate) :
    validate_date_range sd ed =
      if dayNum ed - dayNum sd > 10 then
        Except.error "Maximum range of 10 days allowed"
      else
        Except.ok (dayNum sd * 86400, dayNum ed * 86400 + 86399) := by
  simp only [validate_date_range]
  have h1 : (dayNum ed * 86400 + 86400 - 1) - dayNum sd * 86400
      = (dayNum ed - dayNum sd) * 86400 + 86399 := by ring
  have h2 : dayNum ed * 86400 + 86400 - 1 = dayNum ed * 86400 + 86399 := by ring
  rw [h1, fdiv_days, h2]

/-- Claim C6, counterexample: when neither the primary nor the
secondary quota field is present, the effective remaining quota is 0,
which is below the threshold 100, yet `check_rate_limit` does not
sleep, because the sleep additionally requires a reset time. -/
theorem guard_no_wait_without_reset :
    effectiveRemaining ⟨⟨none, none, none⟩, none⟩ = 0 ∧
    (0 : Int) < 100 ∧
    check_rate_limit_sleep ⟨⟨none, none, none⟩, none⟩ 100 0 = none := by
  decide

/-- Claim C6, amended: the guard reads `remaining` and `reset` from
the primary field, falls back to the secondary field when the primary
`remaining` is absent, and treats `remaining` as 0 when both are
absent; it sleeps for `reset - now + 10` seconds exactly when the
effective remaining quota is below `min_remaining`, a reset time is
available, and that wait is positive — in particular it does not wait
when quota information is entirely unavailable, since then there is no
reset time. -/
theorem guard_wait_characterization :
    (∀ (resp : RateLimitResp) (minr now r t : Int), resp.rate.remaining = some r →
        resp.rate.reset = some t → r < minr → t - now + 10 > 0 →
        check_rate_limit_sleep resp minr now = some (t - now + 10)) ∧
    (∀ (resp : RateLimitResp) (cf : RateFields), resp.rate.remaining = none →
        resp.core = some cf →
        effectiveRemaining resp = (cf.remaining).getD 0 ∧ effectiveReset resp = cf.reset) ∧
    (∀ (resp : RateLimitResp) (minr now : Int), resp.rate.remaining = none →
        resp.core = none →
        effectiveRemaining resp = 0 ∧ check_rate_limit_sleep resp minr now = none) ∧
    (∀ (resp : RateLimitResp) (minr now : Int), minr ≤ effectiveRemaining resp →
        check_rate_limit_sleep resp minr now = none) := by
  refine ⟨?_, ?_, ?_, ?_⟩
  · intro resp minr now r t hr ht hlt hw
    simp only [check_rate_limit_sleep, effectiveRemaining, effectiveReset, hr, ht]
    rw [if_pos hlt, if_pos hw]
  · intro resp cf hr hc
    simp only [effectiveRemaining, effectiveReset, hr, hc]
    exact ⟨trivial, trivial⟩
  · intro resp minr now hr hc
    simp only [check_rate_limit_sleep, effectiveRemaining, effectiveReset, hr, hc]
    exact ⟨trivial, trivial⟩
  · intro resp minr now hge
    have hnot : ¬ (effectiveRemaining resp < minr) := by omega
    simp only [check_rate_limit_sleep]
    cases hres : effectiveReset resp with
    | none => rfl
    | some reset => simp [hnot]

theorem guard_wait_characterization_witness :
    check_rate_limit_sleep ⟨⟨some 5, some 1000, some 5000⟩, none⟩ 100 0 = some 1010 ∧
    effectiveRemaining ⟨⟨none, none, none⟩, some ⟨some 7, some 44, none⟩⟩ = 7 ∧
    check_rate_limit_sleep ⟨⟨none, none, none⟩, none⟩ 50 0 = none ∧
    check_rate_limit_sleep ⟨⟨some 500, some 1000, none⟩, none⟩ 100 0 = none := by
  refine ⟨?_, ?_, ?_, ?_⟩
  · exact guard_wait_characterization.1 ⟨⟨some 5, some 1000, some 5000⟩, none⟩ 100 0 5 1000
      rfl rfl (by decide) (by decide)
  · exact ((guard_wait_characterization.2.1 ⟨⟨none, none, none⟩, some ⟨some 7, some 44, none⟩⟩
      ⟨some 7, some 44, none⟩ rfl rfl).1).trans (by decide)
  · exact (guard_wait_characterization.2.2.1 ⟨⟨none, none, none⟩, none⟩ 50 0 rfl rfl).2
  · exact guard_wait_characterization.2.2.2 ⟨⟨some 500, some 1000, none⟩, none⟩ 100 0 (by decide)

/-- Persisted commit record, as built in `process_single_repo`
(src/collect/collect_commits.py, lines 240-249).  The `date` field
holds the commit author timestamp (stored as its isoformat string in
the JSON, modelled structurally, see `dateOf`).  The committer
identity is read into local variables by the source but never stored
in the record. -/
structure CommitData where
  sha : String
  message : String
  date : UTCTime
  repository : String
  author_login : String
  author_name : String
  author_email : String
  url : String
deriving DecidableEq, Repr

/-- Lookup in an insertion-ordered dictionary keyed by commit id. -/
def alookupRow : List (String × CommitData) → String → Option CommitData
  | [], _ => none
  | (s, d) :: rest, sha => if s = sha then some d else alookupRow rest sha

/-- Python dict assignment `m[k] = v`: replaces the value in place when
the key exists, else appends the new binding at the end. -/
def rowSet : List (String × CommitData) → String → CommitData → List (String × CommitData)
  | [], sha, d => [(sha, d)]
  | (s0, d0) :: rest, sha, d =>
    if s0 = sha then (s0, d) :: rest else (s0, d0) :: rowSet rest sha d

/-- Python `dict.values()` in insertion order. -/
def rowValues : List (String × CommitData) → List CommitData
  | [] => []
  | (_, d) :: rest => d :: rowValues rest

/-- Sequential keyed insertion of records into a dictionary:
`for c in cs: m[c.sha] = c`.  Also models the dict comprehension
that keys a stored JSON array by sha (starting from the empty dict). -/
def mergeInto (m : List (String × CommitData)) : List CommitData → List (String × CommitData)
  | [] => m
  | c :: rest => mergeInto (rowSet m c.sha c) rest

/-- Last record of the list carrying the given sha, if any. -/
def lastWithSha : List CommitData → String → Option CommitData
  | [], _ => none
  | c :: rest, sha =>
    match lastWithSha rest sha with
    | some d => some d
    | none => if c.sha = sha then some c else none

/-- Outcome of `s3.get_object`: the stored body, a not-found error
(`NoSuchKey` / `404` / `NotFound`), or any other client error. -/
inductive ReadResult where
  | found (data : List CommitData)
  | noSuchKey
  | otherError
deriving DecidableEq, Repr

/-- Object store state: stored JSON arrays by key, the set of keys
whose read fails with a non-not-found client error, and the log of
`put_object` calls performed. -/
structure S3 where
  objects : List (String × List CommitData)
  errorKeys : List String
  puts : List (String × List CommitData)
deriving DecidableEq, Repr

def objLookup : List (String × List CommitData) → String → Option (List CommitData)
  | [], _ => none
  | (k0, v) :: rest, k => if k0 = k then some v else objLookup rest k

def objSet : List (String × List CommitData) → String → List CommitData →
    List (String × List CommitData)
  | [], k, v => [(k, v)]
  | (k0, v0) :: rest, k, v =>
    if k0 = k then (k0, v) :: rest else (k0, v0) :: objSet rest k v

def s3read (s : S3) (k : String) : ReadResult :=
  if s.errorKeys.contains k then ReadResult.otherError
  else
    match objLookup s.objects k with
    | some v => ReadResult.found v
    | none => ReadResult.noSuchKey

def s3put (s : S3) (k : String) (v : List CommitData) : S3 :=
  { objects := objSet s.objects k v, errorKeys := s.errorKeys, puts := s.puts ++ [(k, v)] }

/-- Bucket object key (src/collect/collect_commits.py, line 427):
the path component after the prefix is the map key under which the
commits were accumulated (the platform login). -/
def s3Key (pfx username ds : String) : String :=
  pfx ++ "/" ++ username ++ "/" ++ ds ++ "/commits.json"

/-- Reading the existing bucket (src/collect/collect_commits.py,
lines 430-439): a stored array is keyed by sha via a dict
comprehension; a not-found client error yields the empty dict; any
other client error propagates (`none`). -/
def readExisting : ReadResult → Option (List (String × CommitData))
  | ReadResult.found data => some (mergeInto [] data)
  | ReadResult.noSuchKey => some []
  | ReadResult.otherError => none

/-- One (author, day) flush of `upload_to_s3`
(src/collect/collect_commits.py, lines 425-454): read the existing
bucket, merge the new day records into it keyed by sha, and write the
full merged value list back unconditionally. -/
def flushGroup (pfx u : String) (d : CalDate) (dayCommits : List CommitData) (s3 : S3) :
    Except Unit S3 :=
  match readExisting (s3read s3 (s3Key pfx u (dateStr d))) with
  | none => Except.error ()
  | some existing =>
    Except.ok (s3put s3 (s3Key pfx u (dateStr d)) (rowValues (mergeInto existing dayCommits)))

/-- Append a record to its date group, creating the group at the end
on first sight (`defaultdict(list)` with append). -/
def addToGroup : List (CalDate × List CommitData) → CalDate → CommitData →
    List (CalDate × List CommitData)
  | [], d, c => [(d, [c])]
  | (d0, l) :: rest, d, c =>
    if d0 = d then (d0, l ++ [c]) :: rest else (d0, l) :: addToGroup rest d c

def groupByDateAux (acc : List (CalDate × List CommitData)) :
    List CommitData → List (CalDate × List CommitData)
  | [] => acc
  | c :: rest => groupByDateAux (addToGroup acc (dateOf c.date) c) rest

/-- Grouping of one author's records by the calendar date of their
author timestamp (src/collect/collect_commits.py, lines 418-422). -/
def groupByDate (cs : List CommitData) : List (CalDate × List CommitData) :=
  groupByDateAux [] cs

def uploadGroups (pfx u : String) : List (CalDate × List CommitData) → S3 → Except Unit S3
  | [], s3 => Except.ok s3
  | (d, l) :: rest, s3 =>
    match flushGroup pfx u d l s3 with
    | Except.error e => Except.error e
    | Except.ok s3b => uploadGroups pfx u rest s3b

/-- Source: `upload_to_s3` (src/collect/collect_commits.py, lines
410-454): for each author, group its records by author-timestamp date
and flush each (author, day) group. -/
def upload_to_s3 (pfx : String) :
    List (String × List (String × CommitData)) → S3 → Except Unit S3
  | [], s3 => Except.ok s3
  | (u, m) :: rest, s3 =>
    match uploadGroups pfx u (groupByDate (rowValues m)) s3 with
    | Except.error e => Except.error e
    | Except.ok s3b => upload_to_s3 pfx rest s3b

/-- Keys written by an upload run, empty when it raised. -/
def putKeys : Except Unit S3 → List String
  | Except.error _ => []
  | Except.ok s => s.puts.map Prod.fst

theorem alookupRow_rowSet (m : List (String × CommitData)) (k k2 : String) (v : CommitData) :
    alookupRow (rowSet m k v) k2 = if k = k2 then some v else alookupRow m k2 := by
  induction m with
  | nil => simp [rowSet, alookupRow]
  | cons p rest ih =>
    obtain ⟨s0, d0⟩ := p
    by_cases h0 : s0 = k
    · subst h0
      simp only [rowSet, if_pos rfl, alookupRow]
      by_cases h2 : s0 = k2
      · simp only [if_pos h2]
      · simp only [if_neg h2]
    · simp only [rowSet, if_neg h0, alookupRow]
      by_cases h2 : s0 = k2
      · have hk : ¬ (k = k2) := fun h => h0 (h.trans h2.symm).symm
        simp only [if_pos h2, if_neg hk]
      · simp only [if_neg h2, ih]

theorem lookup_mergeInto (cs : List CommitData) (m : List (String × CommitData)) (sha : String) :
    alookupRow (mergeInto m cs) sha =
      match lastWithSha cs sha with
      | some c => some c
      | none => alookupRow m sha := by
  induction cs generalizing m with
  | nil => simp [mergeInto, lastWithSha]
  | cons c rest ih =>
    simp only [mergeInto, lastWithSha, ih]
    cases lastWithSha rest sha with
    | some d => rfl
    | none =>
      simp only [alookupRow_rowSet]
      by_cases h : c.sha = sha
      · rw [if_pos h, if_pos h]
      · rw [if_neg h, if_neg h]

/-- Sample records for the documented merge scenario. -/
def exRec (sha msg : String) : CommitData :=
  { sha := sha, message := msg, date := ⟨2025, 3, 6, 10, 0, 0⟩, repository := "svc-api",
    author_login := "bob", author_name := "Bob", author_email := "bob@example.com",
    url := "https://example.com/c" }

/-- Claim C4: a Merge-Upload Writer flush of one (author, day) group
reads the existing bucket, treating a not-found read as an empty
bucket while any other read failure propagates; it merges the new
records keyed by commit id with new values overwriting existing ones
on collision, and writes the full merged bucket back.  The final
conjunct is the documented scenario: a bucket holding c0 and c1,
merged with a changed c1 and a new c2, afterwards holds c0, the new
c1 and c2. -/
theorem flush_group_merge_spec :
    (∀ (pfx u : String) (d : CalDate) (cs : List CommitData) (s3 : S3),
        s3read s3 (s3Key pfx u (dateStr d)) = ReadResult.otherError →
        flushGroup pfx u d cs s3 = Except.error ()) ∧
    (∀ (pfx u : String) (d : CalDate) (cs : List CommitData) (s3 : S3),
        s3read s3 (s3Key pfx u (dateStr d)) = ReadResult.noSuchKey →
        flushGroup pfx u d cs s3 =
          Except.ok (s3put s3 (s3Key pfx u (dateStr d)) (rowValues (mergeInto [] cs)))) ∧
    (∀ (pfx u : String) (d : CalDate) (cs : List CommitData) (s3 : S3)
        (data : List CommitData),
        s3read s3 (s3Key pfx u (dateStr d)) = ReadResult.found data →
        flushGroup pfx u d cs s3 =
          Except.ok (s3put s3 (s3Key pfx u (dateStr d))
            (rowValues (mergeInto (mergeInto [] data) cs)))) ∧
    (∀ (m : List (String × CommitData)) (cs : List CommitData) (sha : String),
        alookupRow (mergeInto m cs) sha =
          match lastWithSha cs sha with
          | some c => some c
          | none => alookupRow m sha) ∧
    rowValues (mergeInto (mergeInto [] [exRec "c0" "keep", exRec "c1" "old"])
        [exRec "c1" "new", exRec "c2" "add"]) =
      [exRec "c0" "keep", exRec "c1" "new", exRec "c2" "add"] := by
  refine ⟨?_, ?_, ?_, fun m cs sha => lookup_mergeInto cs m sha, by decide⟩
  · intro pfx u d cs s3 h
    simp only [flushGroup, h, readExisting]
  · intro pfx u d cs s3 h
    simp only [flushGroup, h, readExisting]
  · intro pfx u d cs s3 data h
    simp only [flushGroup, h, readExisting]

theorem flush_group_merge_spec_witness :
    flushGroup "p" "bob" ⟨2025, 3, 6⟩ [exRec "c1" "x"]
        ⟨[], ["p/bob/2025-03-06/commits.json"], []⟩ = Except.error () ∧
    flushGroup "p" "bob" ⟨2025, 3, 6⟩ [exRec "c1" "x"] ⟨[], [], []⟩ =
      Except.ok (s3put ⟨[], [], []⟩ (s3Key "p" "bob" (dateStr ⟨2025, 3, 6⟩))
        (rowValues (mergeInto [] [exRec "c1" "x"]))) ∧
    flushGroup "p" "bob" ⟨2025, 3, 6⟩ [exRec "c1" "x"]
        ⟨[("p/bob/2025-03-06/commits.json", [exRec "c1" "old"])], [], []⟩ =
      Except.ok (s3put ⟨[("p/bob/2025-03-06/commits.json", [exRec "c1" "old"])], [], []⟩
        (s3Key "p" "bob" (dateStr ⟨2025, 3, 6⟩))
        (rowValues (mergeInto (mergeInto [] [exRec "c1" "old"]) [exRec "c1" "x"]))) ∧
    alookupRow (mergeInto [] [exRec "c1" "x"]) "c1" = some (exRec "c1" "x") := by
  refine ⟨?_, ?_, ?_, ?_⟩
  · exact flush_group_merge_spec.1 "p" "bob" ⟨2025, 3, 6⟩ [exRec "c1" "x"]
      ⟨[], ["p/bob/2025-03-06/commits.json"], []⟩ (by decide)
  · exact flush_group_merge_spec.2.1 "p" "bob" ⟨2025, 3, 6⟩ [exRec "c1" "x"] ⟨[], [], []⟩
      (by decide)
  · exact flush_group_merge_spec.2.2.1 "p" "bob" ⟨2025, 3, 6⟩ [exRec "c1" "x"]
      ⟨[("p/bob/2025-03-06/commits.json", [exRec "c1" "old"])], [], []⟩ [exRec "c1" "old"]
      (by decide)
  · exact (flush_group_merge_spec.2.2.2.1 [] [exRec "c1" "x"] "c1").trans (by decide)

/-- Whether the first character list starts with the second. -/
def startsWithLC : List Char → List Char → Bool
  | _, [] => true
  | [], _ :: _ => false
  | a :: as, b :: bs => a = b && startsWithLC as bs

/-- Whether the first character list contains the second as a
contiguous run. -/
def hasSubLC : List Char → List Char → Bool
  | [], pat => pat.isEmpty
  | a :: rest, pat => startsWithLC (a :: rest) pat || hasSubLC rest pat

/-- Python substring containment `pat in s`. -/
def strContains (s pat : String) : Bool :=
  hasSubLC s.toList pat.toList

/-- Python `str.lower()`, modelled character-wise (the identifiers
this code lower-cases are ASCII). -/
def strLower (s : String) : String :=
  String.mk (s.toList.map Char.toLower)

/-- Known bot account names (src/collect/collect_commits.py, lines
36-51); the Python set is modelled as a list, membership only. -/
def BOT_USERNAMES : List String :=
  ["dependabot[bot]", "dependabot-preview[bot]", "renovate[bot]", "renovatebot",
   "greenkeeper[bot]", "snyk-bot", "github-actions[bot]", "codecov[bot]",
   "sonarcloud[bot]", "mergify[bot]", "allcontributors[bot]", "imgbot[bot]",
   "dependabot", "renovate"]

/-- Source: `is_bot_user` (src/collect/collect_commits.py, lines
75-97).  An empty username is falsy and classified as a bot. -/
def is_bot_user (username author_name author_email : String) : Bool :=
  if username = "" then true
  else if BOT_USERNAMES.contains (strLower username) || strContains (strLower username) "[bot]" then
    true
  else if author_name ≠ "" &&
      (strContains (strLower author_name) "bot" || strContains (strLower author_name) "[bot]") then
    true
  else if author_email ≠ "" &&
      (strContains (strLower author_email) "noreply" || strContains (strLower author_email) "bot") then
    true
  else
    false

/-- Git-level identity attached to a commit (name, email, date), as in
`commit.commit.author` / `commit.commit.committer`. -/
structure GitAuthor where
  name : String
  email : String
  date : UTCTime
deriving DecidableEq, Repr

/-- One commit as returned by the forge API client.  `author_login`
models `commit.author` (the platform user; `none` when the author
object is missing, the case the code skips) together with its `login`;
`committer_login` models `commit.committer` likewise; `git_author` and
`git_committer` model `commit.commit.author` / `commit.commit.committer`. -/
structure GitHubCommit where
  sha : String
  message : String
  html_url : String
  author_login : Option String
  committer_login : Option String
  git_author : Option GitAuthor
  git_committer : Option GitAuthor
deriving DecidableEq, Repr

/-- Replacement of the committer identity of a commit, leaving all
other fields unchanged (used to state that collection never depends on
the committer). -/
def setCommitter (c : GitHubCommit) (cl : Option String) (gc : Option GitAuthor) :
    GitHubCommit :=
  { c with committer_login := cl, git_committer := gc }

/-- Record built at src/collect/collect_commits.py lines 240-249:
`date` is `commit.commit.author.date`, the author timestamp. -/
def mkCommitData (repoName : String) (c : GitHubCommit) (username : String) (ga : GitAuthor) :
    CommitData :=
  { sha := c.sha, message := c.message, date := ga.date, repository := repoName,
    author_login := username, author_name := ga.name, author_email := ga.email,
    url := c.html_url }

/-- Per-author map of per-sha commit records, the shape of
`repo_commits`, `user_commits` and `batch_user_commits` (all
`defaultdict(dict)` in the source). -/
abbrev UserCommits := List (String × List (String × CommitData))

def alookupUC : UserCommits → String → Option (List (String × CommitData))
  | [], _ => none
  | (u0, m) :: rest, u => if u0 = u then some m else alookupUC rest u

/-- Two-level lookup `uc[u][sha]`, `none` when either key is absent. -/
def alookup2 (uc : UserCommits) (u sha : String) : Option CommitData :=
  match alookupUC uc u with
  | none => none
  | some m => alookupRow m sha

/-- Two-level dict assignment `uc[u][sha] = d` on a `defaultdict`:
the inner row is created on first use; an existing sha entry is
replaced in place; a fresh sha is appended. -/
def ucSet : UserCommits → String → String → CommitData → UserCommits
  | [], u, sha, d => [(u, [(sha, d)])]
  | (u0, m) :: rest, u, sha, d =>
    if u0 = u then (u0, rowSet m sha d) :: rest else (u0, m) :: ucSet rest u sha d

/-- Guarded insertion `if sha not in uc[u]: uc[u][sha] = d`, the merge
step used at src/collect/collect_commits.py lines 341-345 and 381-384. -/
def insertIfAbsentUC (uc : UserCommits) (u sha : String) (d : CommitData) : UserCommits :=
  match alookup2 uc u sha with
  | some _ => uc
  | none => ucSet uc u sha d

/-- All records stored in one row under the given sha. -/
def shaRecordsRow : List (String × CommitData) → String → List CommitData
  | [], _ => []
  | (s, d) :: rest, sha =>
    if s = sha then d :: shaRecordsRow rest sha else shaRecordsRow rest sha

/-- All records stored anywhere in the two-level map under the given
sha, in storage order. -/
def shaRecords : UserCommits → String → List CommitData
  | [], _ => []
  | (_, m) :: rest, sha => shaRecordsRow m sha ++ shaRecords rest sha

/-- Mutable per-repository accumulator of `process_single_repo`. -/
structure RepoAcc where
  commits : UserCommits
  commit_count : Nat
  bot_count : Nat
deriving DecidableEq, Repr

def emptyRepoAcc : RepoAcc := { commits := [], commit_count := 0, bot_count := 0 }

/-- Handling of one commit inside the branch loop
(src/collect/collect_commits.py, lines 217-252): skip when the
platform author object is missing; skip bot authors (counting them);
skip a sha already recorded for this repository (cross-branch dedup);
otherwise build and store the record.  Building the record reads
`commit.commit.author.date` without a guard, so a missing git author
raises there (`AttributeError`, which the branch-level handler does
not catch), modelled as the error case. -/
def procCommit (repoName : String) (acc : RepoAcc) (c : GitHubCommit) : Except Unit RepoAcc :=
  match c.author_login with
  | none => Except.ok acc
  | some username =>
    let author_name := match c.git_author with | some ga => ga.name | none => ""
    let author_email := match c.git_author with | some ga => ga.email | none => ""
    if is_bot_user username author_name author_email then
      Except.ok { acc with bot_count := acc.bot_count + 1 }
    else if (alookup2 acc.commits username c.sha).isSome then
      Except.ok acc
    else
      match c.git_author with
      | none => Except.error ()
      | some ga =>
        Except.ok { acc with
          commits := ucSet acc.commits username c.sha (mkCommitData repoName c username ga),
          commit_count := acc.commit_count + 1 }

def procCommits (repoName : String) (acc : RepoAcc) : List GitHubCommit → Except Unit RepoAcc
  | [] => Except.ok acc
  | c :: rest =>
    match procCommit repoName acc c with
    | Except.error e => Except.error e
    | Except.ok acc2 => procCommits repoName acc2 rest

/-- One branch of the traversal: either its commit listing succeeds
with the given commits, or the listing raises a `GithubException`
part-way, after yielding the given commits.  The handler at
src/collect/collect_commits.py lines 254-255 catches the exception,
logs it and moves on to the next branch. -/
inductive BranchFetch where
  | ok (name : String) (commits : List GitHubCommit)
  | err (name : String) (yielded : List GitHubCommit)
deriving DecidableEq, Repr

def branchCommits : BranchFetch → List GitHubCommit
  | BranchFetch.ok _ cs => cs
  | BranchFetch.err _ ys => ys

/-- The commits seen by the traversal, in branch enumeration order. -/
def allCommits (bs : List BranchFetch) : List GitHubCommit :=
  (bs.map branchCommits).flatten

def hasBranchFailure : List BranchFetch → Bool
  | [] => false
  | BranchFetch.ok _ _ :: rest => hasBranchFailure rest
  | BranchFetch.err _ _ :: _ => true

def procBranches (repoName : String) (acc : RepoAcc) : List BranchFetch → Except Unit RepoAcc
  | [] => Except.ok acc
  | b :: rest =>
    match procCommits repoName acc (branchCommits b) with
    | Except.error e => Except.error e
    | Except.ok acc2 => procBranches repoName acc2 rest

/-- What the repository-level API interactions of one
`process_single_repo` call do: the branch listing succeeds with the
given per-branch outcomes, or the rate-limit check / branch listing
raises `RateLimitExceededException`, a repository-level
`GithubException`, or any other exception. -/
inductive RepoApiOutcome where
  | branches (bs : List BranchFetch)
  | rateLimitExc
  | githubExc
  | otherExc
deriving DecidableEq, Repr

/-- Result dictionary of `process_single_repo`
(src/collect/collect_commits.py, lines 261-290).  The human-readable
status string is display-only and not modelled. -/
structure RepoResult where
  success : Bool
  repo : String
  commits : UserCommits
  error : Option String
deriving DecidableEq, Repr

/-- Source: `process_single_repo` (src/collect/collect_commits.py,
lines 199-290).  Branch-level fetch failures are caught inside the
loop and skipped; an `AttributeError` while building a record escapes
to the outer handler and fails the repository as `unexpected`;
`RateLimitExceededException` and `GithubException` at repository level
map to the `rate_limit` and `github_api` error kinds. -/
def process_single_repo (repoName : String) (api : RepoApiOutcome) : RepoResult :=
  match api with
  | RepoApiOutcome.branches bs =>
    match procBranches repoName emptyRepoAcc bs with
    | Except.ok acc =>
      { success := true, repo := repoName, commits := acc.commits, error := none }
    | Except.error _ =>
      { success := false, repo := repoName, commits := [], error := some "unexpected" }
  | RepoApiOutcome.rateLimitExc =>
    { success := false, repo := repoName, commits := [], error := some "rate_limit" }
  | RepoApiOutcome.githubExc =>
    { success := false, repo := repoName, commits := [], error := some "github_api" }
  | RepoApiOutcome.otherExc =>
    { success := false, repo := repoName, commits := [], error := some "unexpected" }

/-- First commit of the list carrying the given sha, if any. -/
def firstWithSha : List GitHubCommit → String → Option GitHubCommit
  | [], _ => none
  | c :: rest, sha => if c.sha = sha then some c else firstWithSha rest sha

/-- Merge of one result row into an accumulation structure: the inner
loop of src/collect/collect_commits.py lines 340-345 for one author. -/
def mergeRow (acc : UserCommits) (u : String) : List (String × CommitData) → UserCommits
  | [] => acc
  | (sha, d) :: rest => mergeRow (insertIfAbsentUC acc u sha d) u rest

/-- Merge of a per-repository result map into an accumulation
structure (src/collect/collect_commits.py, lines 339-345): for every
author and sha of the result, the record is stored only when the sha
is not already present for that author.  The run-wide structure and
the pending-batch structure are each updated by this same loop. -/
def mergeUC (acc : UserCommits) : UserCommits → UserCommits
  | [] => acc
  | (u, m) :: rest => mergeUC (mergeRow acc u m) rest

/-- Completion-marker writes of `_mark_repo_processed_for_days`
(src/collect/collect_commits.py, lines 185-187): one put per day of
the window, under the `(day, repo)` cache key.  `failAfter = some k`
models the put raising after the first `k` days were written (the
partial effect of an exception inside the loop); the returned flag
says whether an exception was raised. -/
def writeMarkers (markers : List (String × String)) (repo : String) (days : List String)
    (failAfter : Option Nat) : List (String × String) × Bool :=
  match failAfter with
  | none => (markers ++ days.map (fun d => (d, repo)), false)
  | some k => (markers ++ (days.take k).map (fun d => (d, repo)), true)

def addProcessedDay : List (String × List String) → String → String →
    List (String × List String)
  | [], d, repo => [(d, [repo])]
  | (d0, rs) :: rest, d, repo =>
    if d0 = d then (d0, if rs.contains repo then rs else rs ++ [repo]) :: rest
    else (d0, rs) :: addProcessedDay rest d repo

/-- In-memory `day_to_processed` update after a successful marker
write: `for d in days: day_to_processed.setdefault(d, set()).add(repo)`. -/
def addProcessed (m : List (String × List String)) (repo : String) (days : List String) :
    List (String × List String) :=
  days.foldl (fun acc d => addProcessedDay acc d repo) m

/-- Orchestrator state mutated by the completion loop of
`collect_commits` (src/collect/collect_commits.py, lines 309-395).
`markers` is the set of `(day, repo)` completion markers present in
the store. -/
structure OrchState where
  user_commits : UserCommits
  batch_user_commits : UserCommits
  day_to_processed : List (String × List String)
  markers : List (String × String)
  failed_repos : List RepoResult
  repos_since_last_upload : Nat
deriving DecidableEq, Repr

def emptyOrchState : OrchState :=
  { user_commits := [], batch_user_commits := [], day_to_processed := [], markers := [],
    failed_repos := [], repos_since_last_upload := 0 }

/-- Environment of one completion-handling step: whether the marker
writes raise (and after how many days), and what the inline retry
invocation of `process_single_repo` returns, with its own marker-write
behaviour (consulted only when a retry happens). -/
structure StepEnv where
  markerFailAfter : Option Nat
  retryResult : RepoResult
  retryMarkerFailAfter : Option Nat
deriving Repr

/-- Output of one completion-handling step: the new state, the batches
handed to `upload_to_s3` during the step, and how many times the step
itself invoked the rate-limit guard and re-invoked
`process_single_repo` (the inline retry). -/
structure StepOut where
  state : OrchState
  uploadedBatches : List UserCommits
  guardCalls : Nat
  retryCalls : Nat
deriving Repr

/-- Python `list.remove` with the `ValueError` swallowed: drop the
first element equal to the given one, if any
(src/collect/collect_commits.py, lines 392-395). -/
def removeFirst : List RepoResult → RepoResult → List RepoResult
  | [], _ => []
  | x :: rest, r => if x = r then rest else x :: removeFirst rest r

/-- Success-branch state update (src/collect/collect_commits.py,
lines 337-353): merge the result into both accumulation structures,
then attempt the marker writes — an exception there is caught and
logged, skipping only the in-memory `day_to_processed` update. -/
def applySuccess (st : OrchState) (res : RepoResult) (failAfter : Option Nat)
    (days : List String) : OrchState :=
  let uc := mergeUC st.user_commits res.commits
  let bc := mergeUC st.batch_user_commits res.commits
  let mk := writeMarkers st.markers res.repo days failAfter
  let dtp := if mk.2 then st.day_to_processed else addProcessed st.day_to_processed res.repo days
  { st with
    user_commits := uc
    batch_user_commits := bc
    markers := mk.1
    day_to_processed := dtp }

/-- Source: the body of the completion loop of `collect_commits`
(src/collect/collect_commits.py, lines 331-395), handling one
completed future.  On success: merge, marker writes (exception caught),
batch counter and conditional flush.  On failure: record the failure;
when the error kind is `rate_limit`, call the rate-limit guard and
retry that repository once inline — a successful retry merges, writes
markers and removes the recorded failure, without touching the batch
counter; a failed retry leaves the repository failed.  Other error
kinds are never retried. -/
def handle_completed (st : OrchState) (result : RepoResult) (env : StepEnv)
    (days : List String) (batchSize : Option Nat) : StepOut :=
  if result.success then
    let st1 := applySuccess st result env.markerFailAfter days
    let n := st1.repos_since_last_upload + 1
    let doFlush := match batchSize with
      | some b => decide (0 < b) && decide (b ≤ n)
      | none => false
    if doFlush then
      { state := { st1 with
          batch_user_commits := []
          repos_since_last_upload := 0 }
        uploadedBatches := [st1.batch_user_commits]
        guardCalls := 0
        retryCalls := 0 }
    else
      { state := { st1 with repos_since_last_upload := n }
        uploadedBatches := []
        guardCalls := 0
        retryCalls := 0 }
  else
    let failed1 := st.failed_repos ++ [result]
    if result.error = some "rate_limit" then
      let rr := env.retryResult
      if rr.success then
        let uc := mergeUC st.user_commits rr.commits
        let bc := mergeUC st.batch_user_commits rr.commits
        let mk := writeMarkers st.markers rr.repo days env.retryMarkerFailAfter
        let dtp := if mk.2 then st.day_to_processed
          else addProcessed st.day_to_processed rr.repo days
        { state := { st with
            user_commits := uc
            batch_user_commits := bc
            markers := mk.1
            day_to_processed := dtp
            failed_repos := removeFirst failed1 result }
          uploadedBatches := []
          guardCalls := 1
          retryCalls := 1 }
      else
        { state := { st with failed_repos := failed1 }
          uploadedBatches := []
          guardCalls := 1
          retryCalls := 1 }
    else
      { state := { st with failed_repos := failed1 }
        uploadedBatches := []
        guardCalls := 0
        retryCalls := 0 }

/-- The completion loop over all futures in completion order, followed
by the final remainder flush (src/collect/collect_commits.py, lines
404-406).  Returns the final state and the batches flushed to the
Merge-Upload Writer, in order. -/
def collect_commits_run (days : List String) (batchSize : Option Nat) (st : OrchState) :
    List (RepoResult × StepEnv) → OrchState × List UserCommits
  | [] =>
    let finalFlush := match batchSize with
      | some b => decide (0 < b) && decide (0 < st.repos_since_last_upload)
      | none => false
    if finalFlush then (st, [st.batch_user_commits]) else (st, [])
  | (r, env) :: rest =>
    let out := handle_completed st r env days batchSize
    let res := collect_commits_run days batchSize out.state rest
    (res.1, out.uploadedBatches ++ res.2)

theorem alookup2_ucSet (uc : UserCommits) (u sha u2 sha2 : String) (d : CommitData) :
    alookup2 (ucSet uc u sha d) u2 sha2 =
      if u = u2 ∧ sha = sha2 then some d else alookup2 uc u2 sha2 := by
  induction uc with
  | nil =>
    simp only [ucSet, alookup2, alookupUC]
    by_cases hu : u = u2
    · subst hu
      simp only [if_pos rfl]
      by_cases hs : sha = sha2
      · simp [hs, alookupRow]
      · simp [hs, alookupRow]
    · simp [hu]
  | cons p rest ih =>
    obtain ⟨u0, m⟩ := p
    by_cases h0 : u0 = u
    · subst h0
      simp only [ucSet, if_pos rfl, alookup2, alookupUC]
      by_cases hu : u0 = u2
      · simp only [if_pos hu]
        rw [alookupRow_rowSet]
        by_cases hs : sha = sha2
        · simp [hu, hs]
        · simp [hs]
      · have : ¬ (u0 = u2 ∧ sha = sha2) := fun h => hu h.1
        simp [hu, this]
    · simp only [ucSet, if_neg h0, alookup2, alookupUC]
      by_cases hu : u0 = u2
      · have : ¬ (u = u2 ∧ sha = sha2) := fun h => h0 (h.1.symm ▸ hu)
        simp [hu, this]
      · simp only [if_neg hu]
        exact ih

theorem shaRecordsRow_rowSet_ne (m : List (String × CommitData)) (sha sha2 : String)
    (d : CommitData) (h : sha ≠ sha2) :
    shaRecordsRow (rowSet m sha d) sha2 = shaRecordsRow m sha2 := by
  induction m with
  | nil => simp [rowSet, shaRecordsRow, h]
  | cons p rest ih =>
    obtain ⟨s0, d0⟩ := p
    by_cases h0 : s0 = sha
    · subst h0
      simp only [rowSet, if_pos rfl, shaRecordsRow, if_neg h]
    · simp only [rowSet, if_neg h0, shaRecordsRow]
      by_cases h2 : s0 = sha2
      · simp [h2, ih]
      · simp [h2, ih]

theorem shaRecords_ucSet_ne (uc : UserCommits) (u sha sha2 : String) (d : CommitData)
    (h : sha ≠ sha2) :
    shaRecords (ucSet uc u sha d) sha2 = shaRecords uc sha2 := by
  induction uc with
  | nil => simp [ucSet, shaRecords, shaRecordsRow, h]
  | cons p rest ih =>
    obtain ⟨u0, m⟩ := p
    by_cases h0 : u0 = u
    · simp only [ucSet, if_pos h0, shaRecords]
      rw [shaRecordsRow_rowSet_ne m sha sha2 d h]
    · simp only [ucSet, if_neg h0, shaRecords]
      rw [ih]

theorem shaRecordsRow_rowSet_new (m : List (String × CommitData)) (sha : String)
    (d : CommitData) (h : shaRecordsRow m sha = []) :
    shaRecordsRow (rowSet m sha d) sha = [d] := by
  induction m with
  | nil => simp [rowSet, shaRecordsRow]
  | cons p rest ih =>
    obtain ⟨s0, d0⟩ := p
    by_cases h0 : s0 = sha
    · rw [shaRecordsRow, if_pos h0] at h
      exact absurd h (by simp)
    · rw [shaRecordsRow, if_neg h0] at h
      simp only [rowSet, if_neg h0, shaRecordsRow, if_neg h0]
      exact ih h

theorem shaRecords_ucSet_new (uc : UserCommits) (u sha : String) (d : CommitData)
    (h : shaRecords uc sha = []) :
    shaRecords (ucSet uc u sha d) sha = [d] := by
  induction uc with
  | nil => simp [ucSet, shaRecords, shaRecordsRow]
  | cons p rest ih =>
    obtain ⟨u0, m⟩ := p
    rw [shaRecords] at h
    have hrow : shaRecordsRow m sha = [] := (List.append_eq_nil.mp h).1
    have hrest : shaRecords rest sha = [] := (List.append_eq_nil.mp h).2
    by_cases h0 : u0 = u
    · simp only [ucSet, if_pos h0, shaRecords, hrest]
      rw [shaRecordsRow_rowSet_new m sha d hrow]
      simp
    · simp only [ucSet, if_neg h0, shaRecords, hrow, ih hrest]
      simp

theorem alookup2_insertIfAbsent_pres (uc : UserCommits) (u sha u2 sha2 : String)
    (d v : CommitData) (h : alookup2 uc u2 sha2 = some v) :
    alookup2 (insertIfAbsentUC uc u sha d) u2 sha2 = some v := by
  unfold insertIfAbsentUC
  cases hx : alookup2 uc u sha with
  | some d0 => exact h
  | none =>
    rw [alookup2_ucSet]
    by_cases hc : u = u2 ∧ sha = sha2
    · exact absurd h (by rw [← hc.1, ← hc.2, hx]; simp)
    · rw [if_neg hc]
      exact h

theorem mergeRow_pres (m : List (String × CommitData)) (acc : UserCommits) (u : String)
    (u2 sha2 : String) (v : CommitData) (h : alookup2 acc u2 sha2 = some v) :
    alookup2 (mergeRow acc u m) u2 sha2 = some v := by
  induction m generalizing acc with
  | nil => exact h
  | cons p rest ih =>
    obtain ⟨sha, d⟩ := p
    exact ih _ (alookup2_insertIfAbsent_pres acc u sha u2 sha2 d v h)

/-- Claim C1, counterexample: two successful results both carrying a
record for commit `c1` of author `bob`; after the orchestrator merge
loop processes them in completion order, the accumulated record is
the one from the FIRST result, not the later one, because the merge
guards with `if sha not in user_commits[username]`. -/
theorem merge_not_last_write_wins :
    mergeUC (mergeUC [] [("bob", [("c1", exRec "c1" "first")])])
        [("bob", [("c1", exRec "c1" "second")])]
      = [("bob", [("c1", exRec "c1" "first")])] ∧
    exRec "c1" "first" ≠ exRec "c1" "second" := by
  exact ⟨rfl, by decide⟩

/-- Claim C1, amended: the orchestrator merge into the run-wide and
pending-batch accumulation structures applies FIRST-write-wins on
duplicate commit ids: a record already stored under (author, sha) is
never replaced when later results are merged, so the record from the
result observed earlier in completion order is kept and later
duplicates are ignored.  (Both structures are updated by the same
guarded loop, `mergeUC`.) -/
theorem merge_first_write_wins (acc res : UserCommits) (u sha : String) (d : CommitData)
    (h : alookup2 acc u sha = some d) :
    alookup2 (mergeUC acc res) u sha = some d := by
  induction res generalizing acc with
  | nil => exact h
  | cons p rest ih =>
    obtain ⟨u0, m⟩ := p
    exact ih _ (mergeRow_pres m acc u0 u sha d h)

theorem merge_first_write_wins_witness :
    alookup2 (mergeUC [("bob", [("c1", exRec "c1" "first")])]
        [("bob", [("c1", exRec "c1" "second")])]) "bob" "c1" = some (exRec "c1" "first") :=
  merge_first_write_wins [("bob", [("c1", exRec "c1" "first")])]
    [("bob", [("c1", exRec "c1" "second")])] "bob" "c1" (exRec "c1" "first") (by decide)

theorem procCommit_commits_eq (n : String) (acc acc2 : RepoAcc) (c : GitHubCommit)
    (h : procCommit n acc c = Except.ok acc2) :
    acc2.commits = acc.commits ∨
    (∃ username ga, c.author_login = some username ∧ c.git_author = some ga ∧
      is_bot_user username ga.name ga.email = false ∧
      alookup2 acc.commits username c.sha = none ∧
      acc2.commits = ucSet acc.commits username c.sha (mkCommitData n c username ga)) := by
  cases hauth : c.author_login with
  | none =>
    simp only [procCommit, hauth, Except.ok.injEq] at h
    exact Or.inl (h ▸ rfl)
  | some username =>
    cases hga : c.git_author with
    | none =>
      simp only [procCommit, hauth, hga] at h
      by_cases hbot : is_bot_user username "" "" = true
      · rw [if_pos hbot, Except.ok.injEq] at h
        exact Or.inl (h ▸ rfl)
      · rw [if_neg hbot] at h
        by_cases hdup : (alookup2 acc.commits username c.sha).isSome = true
        · rw [if_pos hdup, Except.ok.injEq] at h
          exact Or.inl (h ▸ rfl)
        · rw [if_neg hdup] at h
          exact absurd h (by simp)
    | some ga =>
      simp only [procCommit, hauth, hga] at h
      by_cases hbot : is_bot_user username ga.name ga.email = true
      · rw [if_pos hbot, Except.ok.injEq] at h
        exact Or.inl (h ▸ rfl)
      · rw [if_neg hbot] at h
        by_cases hdup : (alookup2 acc.commits username c.sha).isSome = true
        · rw [if_pos hdup, Except.ok.injEq] at h
          exact Or.inl (h ▸ rfl)
        · rw [if_neg hdup, Except.ok.injEq] at h
          refine Or.inr ⟨username, ga, rfl, rfl, ?_, ?_, h ▸ rfl⟩
          · exact Bool.not_eq_true _ ▸ hbot
          · exact Option.not_isSome_iff_eq_none.mp hdup

theorem procCommit_insert (n : String) (acc : RepoAcc) (c : GitHubCommit) (username : String)
    (ga : GitAuthor) (hauth : c.author_login = some username) (hga : c.git_author = some ga)
    (hbot : is_bot_user username ga.name ga.email = false)
    (hdup : alookup2 acc.commits username c.sha = none) :
    procCommit n acc c = Except.ok { acc with
      commits := ucSet acc.commits username c.sha (mkCommitData n c username ga)
      commit_count := acc.commit_count + 1 } := by
  simp only [procCommit, hauth, hga, hbot, hdup]
  rfl

theorem procCommits_append (n : String) (l1 l2 : List GitHubCommit) (acc : RepoAcc) :
    procCommits n acc (l1 ++ l2) =
      match procCommits n acc l1 with
      | Except.error e => Except.error e
      | Except.ok acc2 => procCommits n acc2 l2 := by
  induction l1 generalizing acc with
  | nil => rfl
  | cons c rest ih =>
    simp only [List.cons_append, procCommits]
    cases procCommit n acc c with
    | error e => rfl
    | ok acc2 => exact ih acc2

theorem procBranches_eq_procCommits (n : String) (bs : List BranchFetch) (acc : RepoAcc) :
    procBranches n acc bs = procCommits n acc (allCommits bs) := by
  induction bs generalizing acc with
  | nil => rfl
  | cons b rest ih =>
    have hflat : allCommits (b :: rest) = branchCommits b ++ allCommits rest := by
      simp [allCommits]
    rw [hflat, procCommits_append, procBranches]
    cases procCommits n acc (branchCommits b) with
    | error e => rfl
    | ok acc2 => exact ih acc2

theorem dedup_pres (n sha : String) (c0 : GitHubCommit) (u : String) (r : CommitData) :
    ∀ (cs : List GitHubCommit) (acc accR : RepoAcc),
    (∀ c ∈ cs, c.sha = sha → c = c0) →
    c0.author_login = some u →
    procCommits n acc cs = Except.ok accR →
    alookup2 acc.commits u sha = some r →
    shaRecords acc.commits sha = [r] →
    alookup2 accR.commits u sha = some r ∧ shaRecords accR.commits sha = [r] := by
  intro cs
  induction cs with
  | nil =>
    intro acc accR hcons hauth hrun hl hs
    simp only [procCommits, Except.ok.injEq] at hrun
    exact ⟨hrun ▸ hl, hrun ▸ hs⟩
  | cons c rest ih =>
    intro acc accR hcons hauth hrun hl hs
    rw [procCommits] at hrun
    cases hstep : procCommit n acc c with
    | error e => rw [hstep] at hrun; exact absurd hrun (by simp)
    | ok acc2 =>
      rw [hstep] at hrun
      have hrest : ∀ c2 ∈ rest, c2.sha = sha → c2 = c0 :=
        fun c2 hm hsha => hcons c2 (List.mem_cons_of_mem c hm) hsha
      rcases procCommit_commits_eq n acc acc2 c hstep with heq | ⟨username, ga, hau, hga, hbot, hdup, hset⟩
      · exact ih acc2 accR hrest hauth hrun (heq ▸ hl) (heq ▸ hs)
      · have hcsha : c.sha ≠ sha := by
          intro hcs
          have hc0 : c = c0 := hcons c (List.mem_cons_self c rest) hcs
          rw [hc0, hauth] at hau
          have huu : username = u := (Option.some.inj hau).symm
          rw [huu, hcs] at hdup
          rw [hdup] at hl
          exact absurd hl (by simp)
        have hl2 : alookup2 acc2.commits u sha = some r := by
          rw [hset, alookup2_ucSet]
          rw [if_neg (fun hand => hcsha hand.2)]
          exact hl
        have hs2 : shaRecords acc2.commits sha = [r] := by
          rw [hset, shaRecords_ucSet_ne _ _ _ _ _ hcsha]
          exact hs
        exact ih acc2 accR hrest hauth hrun hl2 hs2

theorem dedup_first (n sha : String) (c0 : GitHubCommit) (u : String) (ga : GitAuthor) :
    ∀ (cs : List GitHubCommit) (acc accR : RepoAcc),
    (∀ c ∈ cs, c.sha = sha → c = c0) →
    c0.author_login = some u →
    c0.git_author = some ga →
    is_bot_user u ga.name ga.email = false →
    c0.sha = sha →
    c0 ∈ cs →
    procCommits n acc cs = Except.ok accR →
    alookup2 acc.commits u sha = none →
    shaRecords acc.commits sha = [] →
    alookup2 accR.commits u sha = some (mkCommitData n c0 u ga) ∧
    shaRecords accR.commits sha = [mkCommitData n c0 u ga] := by
  intro cs
  induction cs with
  | nil =>
    intro acc accR hcons hauth hga hbot hsha hmem hrun hl hs
    exact absurd hmem (by simp)
  | cons c rest ih =>
    intro acc accR hcons hauth hga hbot hsha hmem hrun hl hs
    rw [procCommits] at hrun
    by_cases hcsha : c.sha = sha
    · have hc0 : c = c0 := hcons c (List.mem_cons_self c rest) hcsha
      subst hc0
      have hins := procCommit_insert n acc c u ga hauth hga hbot (hsha ▸ hl)
      rw [hins] at hrun
      have hrest : ∀ c2 ∈ rest, c2.sha = sha → c2 = c :=
        fun c2 hm hsha2 => hcons c2 (List.mem_cons_of_mem c hm) hsha2
      refine dedup_pres n sha c u (mkCommitData n c u ga) rest _ accR hrest hauth hrun ?_ ?_
      · show alookup2 (ucSet acc.commits u c.sha (mkCommitData n c u ga)) u sha = _
        rw [hsha, alookup2_ucSet, if_pos ⟨rfl, rfl⟩]
      · show shaRecords (ucSet acc.commits u c.sha (mkCommitData n c u ga)) sha = _
        rw [hsha]
        exact shaRecords_ucSet_new acc.commits u sha _ hs
    · cases hstep : procCommit n acc c with
      | error e => rw [hstep] at hrun; exact absurd hrun (by simp)
      | ok acc2 =>
        rw [hstep] at hrun
        have hmem2 : c0 ∈ rest := by
          cases List.mem_cons.mp hmem with
          | inl h => exact absurd (h ▸ hsha) (h ▸ hcsha)
          | inr h => exact h
        have hrest : ∀ c2 ∈ rest, c2.sha = sha → c2 = c0 :=
          fun c2 hm hsha2 => hcons c2 (List.mem_cons_of_mem c hm) hsha2
        rcases procCommit_commits_eq n acc acc2 c hstep with heq | ⟨username, ga2, _, _, _, _, hset⟩
        · exact ih acc2 accR hrest hauth hga hbot hsha hmem2 hrun (heq ▸ hl) (heq ▸ hs)
        · have hl2 : alookup2 acc2.commits u sha = none := by
            rw [hset, alookup2_ucSet, if_neg (fun hand => hcsha hand.2)]
            exact hl
          have hs2 : shaRecords acc2.commits sha = [] := by
            rw [hset, shaRecords_ucSet_ne _ _ _ _ _ hcsha]
            exact hs
          exact ih acc2 accR hrest hauth hga hbot hsha hmem2 hrun hl2 hs2

/-- Claim C8: when every occurrence of a commit id in the traversal is
the same commit (as git guarantees: the id determines the commit), and
that commit has a platform author, a git author identity, and is not
bot-classified, a successful repository traversal stores exactly one
record for that commit id — the record built from the first branch, in
enumeration order, that encountered it (all occurrences being equal,
this is the record of every occurrence). -/
theorem cross_branch_dedup_first_wins (n : String) (bs : List BranchFetch) (sha u : String)
    (c0 : GitHubCommit) (ga : GitAuthor)
    (hcons : ∀ c ∈ allCommits bs, c.sha = sha → c = c0)
    (hmem : c0 ∈ allCommits bs) (hsha : c0.sha = sha)
    (hauth : c0.author_login = some u) (hga : c0.git_author = some ga)
    (hbot : is_bot_user u ga.name ga.email = false)
    (hsucc : (process_single_repo n (RepoApiOutcome.branches bs)).success = true) :
    shaRecords (process_single_repo n (RepoApiOutcome.branches bs)).commits sha
      = [mkCommitData n c0 u ga] := by
  cases hpb : procBranches n emptyRepoAcc bs with
  | error e =>
    rw [process_single_repo, hpb] at hsucc
    exact absurd hsucc (by simp)
  | ok acc =>
    rw [process_single_repo, hpb]
    have hrun : procCommits n emptyRepoAcc (allCommits bs) = Except.ok acc := by
      rw [← procBranches_eq_procCommits, hpb]
    exact (dedup_first n sha c0 u ga (allCommits bs) emptyRepoAcc acc
      hcons hauth hga hbot hsha hmem hrun rfl rfl).2

/-- Git author identity used in the concrete scenario. -/
def aliceGA : GitAuthor :=
  { name := "Alice", email := "alice@example.com", date := ⟨2025, 3, 5, 9, 0, 0⟩ }

/-- Concrete commit used in the scenario: authored by platform user
`alice` on 2025-03-05, committed by a different identity later. -/
def exC8 : GitHubCommit :=
  { sha := "abc123", message := "fix parsing", html_url := "https://example.com/abc123",
    author_login := some "alice", committer_login := some "web-flow",
    git_author := some aliceGA,
    git_committer := some ⟨"GitHub Web", "web@example.com", ⟨2025, 3, 5, 10, 0, 0⟩⟩ }

/-- Two branches both containing the same commit. -/
def exBranches : List BranchFetch :=
  [BranchFetch.ok "main" [exC8], BranchFetch.ok "release" [exC8]]

theorem cross_branch_dedup_first_wins_witness :
    shaRecords (process_single_repo "svc-api" (RepoApiOutcome.branches exBranches)).commits
        "abc123" = [mkCommitData "svc-api" exC8 "alice" aliceGA] :=
  cross_branch_dedup_first_wins "svc-api" exBranches "abc123" "alice" exC8 aliceGA
    (by decide) (by decide) rfl rfl rfl (by decide) (by decide)

/-- Modelled from the spec: the author_key fallback chain claimed by
the data model — prefer the platform login as login:name, else the
lower-cased commit author email as email:addr, else a stable hash of
the raw commit metadata as unknown:hash12.  Stated only for
comparison with what the code persists. -/
def spec_author_key : Option String → Option String → String → String
  | some l, _, _ => "login:" ++ l
  | none, some e, _ => "email:" ++ strLower e
  | none, none, h12 => "unknown:" ++ h12

/-- Claim C2, counterexample: uploading the accumulated record of
platform user `alice` persists the object under
`p/alice/2025-03-05/commits.json` — the bare login — whereas the
claimed fallback chain would give author_key `login:alice` and key
`p/login:alice/2025-03-05/commits.json`. -/
theorem author_key_not_fallback_chain :
    putKeys (upload_to_s3 "p"
        [("alice", [("abc123", mkCommitData "svc-api" exC8 "alice" aliceGA)])] ⟨[], [], []⟩)
      = ["p/alice/2025-03-05/commits.json"] ∧
    spec_author_key (some "alice") (some "alice@example.com") "0123456789ab" = "login:alice" ∧
    "p/alice/2025-03-05/commits.json" ≠ "p/" ++ "login:alice" ++ "/2025-03-05/commits.json" := by
  refine ⟨rfl, rfl, by decide⟩

theorem pathOK_procCommits (n : String) :
    ∀ (cs : List GitHubCommit) (acc accR : RepoAcc),
    (∀ u sha r, alookup2 acc.commits u sha = some r → r.author_login = u ∧ r.sha = sha) →
    procCommits n acc cs = Except.ok accR →
    ∀ u sha r, alookup2 accR.commits u sha = some r → r.author_login = u ∧ r.sha = sha := by
  intro cs
  induction cs with
  | nil =>
    intro acc accR hacc hrun
    simp only [procCommits, Except.ok.injEq] at hrun
    exact hrun ▸ hacc
  | cons c rest ih =>
    intro acc accR hacc hrun
    rw [procCommits] at hrun
    cases hstep : procCommit n acc c with
    | error e => rw [hstep] at hrun; exact absurd hrun (by simp)
    | ok acc2 =>
      rw [hstep] at hrun
      refine ih acc2 accR ?_ hrun
      rcases procCommit_commits_eq n acc acc2 c hstep with heq | ⟨username, ga, _, _, _, _, hset⟩
      · exact heq ▸ hacc
      · intro u sha r hl
        rw [hset, alookup2_ucSet] at hl
        by_cases hc : username = u ∧ c.sha = sha
        · rw [if_pos hc, Option.some.injEq] at hl
          rw [← hl]
          exact ⟨hc.1, hc.2⟩
        · rw [if_neg hc] at hl
          exact hacc u sha r hl

theorem flushGroup_puts (pfx u : String) (d : CalDate) (cs : List CommitData) (s3 s3b : S3)
    (h : flushGroup pfx u d cs s3 = Except.ok s3b) :
    ∃ v, s3b.puts = s3.puts ++ [(s3Key pfx u (dateStr d), v)] := by
  unfold flushGroup at h
  cases hre : readExisting (s3read s3 (s3Key pfx u (dateStr d))) with
  | none => rw [hre] at h; exact absurd h (by simp)
  | some existing =>
    rw [hre, Except.ok.injEq] at h
    exact ⟨rowValues (mergeInto existing cs), h ▸ rfl⟩

/-- Claim C2, amended: the author component of a persisted bucket key
is the bare platform login under which the record was accumulated —
there is no login:/email:/unknown: fallback chain.  Every record is
stored under exactly its own author login and sha; commits whose
platform author object is missing are skipped during collection (so
no email or hash fallback can ever apply); and the persisted object
key is pfx/login/YYYY-MM-DD/commits.json. -/
theorem author_key_is_bare_login :
    (∀ (n : String) (bs : List BranchFetch) (u sha : String) (r : CommitData),
        alookup2 (process_single_repo n (RepoApiOutcome.branches bs)).commits u sha = some r →
        r.author_login = u ∧ r.sha = sha) ∧
    (∀ (n : String) (acc : RepoAcc) (c : GitHubCommit),
        c.author_login = none → procCommit n acc c = Except.ok acc) ∧
    (∀ (pfx u : String) (d : CalDate) (cs : List CommitData) (s3 s3b : S3),
        flushGroup pfx u d cs s3 = Except.ok s3b →
        ∃ v, s3b.puts = s3.puts ++ [(s3Key pfx u (dateStr d), v)]) ∧
    (∀ pfx u ds, s3Key pfx u ds = pfx ++ "/" ++ u ++ "/" ++ ds ++ "/commits.json") := by
  refine ⟨?_, fun n acc c h => by simp [procCommit, h], flushGroup_puts, fun pfx u ds => rfl⟩
  · intro n bs u sha r hl
    revert hl
    cases hpb : procBranches n emptyRepoAcc bs with
    | error e =>
      rw [process_single_repo, hpb]
      intro hl
      exact absurd hl (by simp [alookup2, alookupUC])
    | ok acc =>
      rw [process_single_repo, hpb]
      intro hl
      refine pathOK_procCommits n (allCommits bs) emptyRepoAcc acc ?_ ?_ u sha r hl
      · intro u2 sha2 r2 hl2
        exact absurd hl2 (by simp [alookup2, alookupUC, emptyRepoAcc])
      · rw [← procBranches_eq_procCommits, hpb]

theorem author_key_is_bare_login_witness :
    ((mkCommitData "svc-api" exC8 "alice" aliceGA).author_login = "alice" ∧
      (mkCommitData "svc-api" exC8 "alice" aliceGA).sha = "abc123") ∧
    procCommit "svc-api" emptyRepoAcc
      { exC8 with author_login := none } = Except.ok emptyRepoAcc ∧
    (∃ v, (s3put ⟨[], [], []⟩ (s3Key "p" "alice" (dateStr ⟨2025, 3, 5⟩))
        (rowValues (mergeInto [] [mkCommitData "svc-api" exC8 "alice" aliceGA]))).puts
      = ([] : List (String × List CommitData)) ++
        [(s3Key "p" "alice" (dateStr ⟨2025, 3, 5⟩), v)]) ∧
    s3Key "p" "alice" "2025-03-05" = "p/alice/2025-03-05/commits.json" := by
  refine ⟨?_, ?_, ?_, ?_⟩
  · exact author_key_is_bare_login.1 "svc-api" exBranches "alice" "abc123"
      (mkCommitData "svc-api" exC8 "alice" aliceGA) (by decide)
  · exact author_key_is_bare_login.2.1 "svc-api" emptyRepoAcc
      { exC8 with author_login := none } rfl
  · exact author_key_is_bare_login.2.2.1 "p" "alice" ⟨2025, 3, 5⟩
      [mkCommitData "svc-api" exC8 "alice" aliceGA] ⟨[], [], []⟩ _ rfl
  · exact (author_key_is_bare_login.2.2.2 "p" "alice" "2025-03-05").trans (by decide)

theorem addToGroup_inv (d : CalDate) (c : CommitData) (hc : dateOf c.date = d) :
    ∀ (acc : List (CalDate × List CommitData)),
    (∀ p ∈ acc, ∀ r ∈ p.2, dateOf r.date = p.1) →
    ∀ p ∈ addToGroup acc d c, ∀ r ∈ p.2, dateOf r.date = p.1 := by
  intro acc
  induction acc with
  | nil =>
    intro hacc p hp r hr
    simp only [addToGroup, List.mem_singleton] at hp
    subst hp
    simp only [List.mem_singleton] at hr
    subst hr
    exact hc
  | cons q rest ih =>
    obtain ⟨d0, l⟩ := q
    intro hacc p hp r hr
    by_cases h0 : d0 = d
    · rw [addToGroup, if_pos h0] at hp
      cases List.mem_cons.mp hp with
      | inl heq =>
        subst heq
        cases List.mem_append.mp hr with
        | inl hin => exact hacc (d0, l) (List.mem_cons_self _ _) r hin
        | inr hone =>
          simp only [List.mem_singleton] at hone
          subst hone
          exact h0 ▸ hc
      | inr hmem => exact hacc p (List.mem_cons_of_mem _ hmem) r hr
    · rw [addToGroup, if_neg h0] at hp
      cases List.mem_cons.mp hp with
      | inl heq =>
        subst heq
        exact hacc (d0, l) (List.mem_cons_self _ _) r hr
      | inr hmem =>
        exact ih (fun p2 hp2 => hacc p2 (List.mem_cons_of_mem _ hp2)) p hmem r hr

theorem groupByDateAux_inv :
    ∀ (cs : List CommitData) (acc : List (CalDate × List CommitData)),
    (∀ p ∈ acc, ∀ r ∈ p.2, dateOf r.date = p.1) →
    ∀ p ∈ groupByDateAux acc cs, ∀ r ∈ p.2, dateOf r.date = p.1 := by
  intro cs
  induction cs with
  | nil => intro acc hacc; exact hacc
  | cons c rest ih =>
    intro acc hacc
    rw [groupByDateAux]
    exact ih (addToGroup acc (dateOf c.date) c) (addToGroup_inv (dateOf c.date) c rfl acc hacc)

/-- Claim C7: the record built for a commit carries the commit author
timestamp (never the committer timestamp — the whole collection step
is invariant under replacing the committer identity); the uploader
groups an author's records by the calendar date of that stored
timestamp, and flushes each group under a key whose day component is
that date rendered YYYY-MM-DD; a commit authored at
2025-02-01T23:59:59Z is bucketed under 2025-02-01 and one authored at
2025-02-02T00:00:00Z under 2025-02-02.  The API client serves the
timestamps in UTC, so the truncated date is the UTC calendar date. -/
theorem bucket_day_from_author_date :
    (∀ (n : String) (acc : RepoAcc) (c : GitHubCommit) (cl : Option String)
        (gc : Option GitAuthor),
        procCommit n acc (setCommitter c cl gc) = procCommit n acc c) ∧
    (∀ (n : String) (c : GitHubCommit) (u : String) (ga : GitAuthor),
        (mkCommitData n c u ga).date = ga.date) ∧
    (∀ (cs : List CommitData) (p : CalDate × List CommitData), p ∈ groupByDate cs →
        ∀ r ∈ p.2, dateOf r.date = p.1) ∧
    (∀ (pfx u : String) (d : CalDate) (cs : List CommitData) (s3 s3b : S3),
        flushGroup pfx u d cs s3 = Except.ok s3b →
        ∃ v, s3b.puts = s3.puts ++ [(s3Key pfx u (dateStr d), v)]) ∧
    dateStr (dateOf ⟨2025, 2, 1, 23, 59, 59⟩) = "2025-02-01" ∧
    dateStr (dateOf ⟨2025, 2, 2, 0, 0, 0⟩) = "2025-02-02" := by
  refine ⟨fun n acc c cl gc => rfl, fun n c u ga => rfl, ?_, flushGroup_puts,
    by decide, by decide⟩
  intro cs p hp r hr
  exact groupByDateAux_inv cs [] (by simp) p hp r hr

theorem bucket_day_from_author_date_witness :
    procCommit "svc-api" emptyRepoAcc (setCommitter exC8 (some "other") none)
      = procCommit "svc-api" emptyRepoAcc exC8 ∧
    (mkCommitData "svc-api" exC8 "alice" aliceGA).date = aliceGA.date ∧
    dateOf (mkCommitData "svc-api" exC8 "alice" aliceGA).date = ⟨2025, 3, 5⟩ ∧
    (∃ v, (s3put ⟨[], [], []⟩ (s3Key "q" "bob" (dateStr ⟨2025, 2, 1⟩))
        (rowValues (mergeInto [] [exRec "z1" "m"]))).puts
      = ([] : List (String × List CommitData)) ++
        [(s3Key "q" "bob" (dateStr ⟨2025, 2, 1⟩), v)]) := by
  refine ⟨?_, ?_, ?_, ?_⟩
  · exact bucket_day_from_author_date.1 "svc-api" emptyRepoAcc exC8 (some "other") none
  · exact bucket_day_from_author_date.2.1 "svc-api" exC8 "alice" aliceGA
  · exact bucket_day_from_author_date.2.2.1
      [mkCommitData "svc-api" exC8 "alice" aliceGA]
      (⟨2025, 3, 5⟩, [mkCommitData "svc-api" exC8 "alice" aliceGA]) (by decide)
      (mkCommitData "svc-api" exC8 "alice" aliceGA) (by decide)
  · exact bucket_day_from_author_date.2.2.2.1 "q" "bob" ⟨2025, 2, 1⟩ [exRec "z1" "m"]
      ⟨[], [], []⟩ _ rfl

/-- Failed result used as an inert retry slot in step environments. -/
def noRetry : RepoResult := { success := false, repo := "", commits := [], error := none }

/-- Branch list whose second branch listing fails (no commits yielded
before the exception). -/
def exErrBranches : List BranchFetch :=
  [BranchFetch.ok "main" [exC8], BranchFetch.err "release" []]

/-- Claim C3, counterexample: a traversal in which one branch listing
failed (a partially-failed collection) still returns success, and the
orchestrator then writes the Completion Marker for the (day, repo)
pair. -/
theorem marker_written_despite_branch_failure :
    hasBranchFailure exErrBranches = true ∧
    (process_single_repo "svc-api" (RepoApiOutcome.branches exErrBranches)).success = true ∧
    (handle_completed emptyOrchState
        (process_single_repo "svc-api" (RepoApiOutcome.branches exErrBranches))
        ⟨none, noRetry, none⟩ ["2025-03-05"] none).state.markers
      = [("2025-03-05", "svc-api")] := by
  refine ⟨rfl, by decide, by decide⟩

/-- Claim C3, amended: Completion Markers for all days of the window
are written exactly when the repository result reports success (and
the marker writes themselves do not raise); branch-level fetch
failures are caught inside the traversal and do not fail the
repository, so a partially-failed collection still gets its markers —
inserting a failed branch into a traversal changes nothing.  Markers
are not written for repository-level failures whose retry does not
succeed. -/
theorem marker_iff_repo_success :
    (∀ (st : OrchState) (result : RepoResult) (env : StepEnv) (days : List String)
        (bsz : Option Nat), result.success = true → env.markerFailAfter = none →
        (handle_completed st result env days bsz).state.markers
          = st.markers ++ days.map (fun d => (d, result.repo))) ∧
    (∀ (st : OrchState) (result : RepoResult) (env : StepEnv) (days : List String)
        (bsz : Option Nat), result.success = false → result.error ≠ some "rate_limit" →
        (handle_completed st result env days bsz).state.markers = st.markers) ∧
    (∀ (st : OrchState) (result : RepoResult) (env : StepEnv) (days : List String)
        (bsz : Option Nat), result.success = false → env.retryResult.success = false →
        (handle_completed st result env days bsz).state.markers = st.markers) ∧
    (∀ (n name : String) (bs1 bs2 : List BranchFetch),
        process_single_repo n (RepoApiOutcome.branches (bs1 ++ BranchFetch.err name [] :: bs2))
          = process_single_repo n (RepoApiOutcome.branches (bs1 ++ bs2))) := by
  refine ⟨?_, ?_, ?_, ?_⟩
  · intro st result env days bsz hs hmf
    simp only [handle_completed, hs, if_true]
    split
    · simp [applySuccess, writeMarkers, hmf]
    · simp [applySuccess, writeMarkers, hmf]
  · intro st result env days bsz hs herr
    simp [handle_completed, hs, herr]
  · intro st result env days bsz hs hretry
    simp only [handle_completed, hs]
    by_cases herr : result.error = some "rate_limit"
    · simp [herr, hretry]
    · simp [herr]
  · intro n name bs1 bs2
    have h1 : allCommits (bs1 ++ BranchFetch.err name [] :: bs2) = allCommits (bs1 ++ bs2) := by
      simp [allCommits, branchCommits]
    simp only [process_single_repo, procBranches_eq_procCommits, h1]

theorem marker_iff_repo_success_witness :
    (handle_completed emptyOrchState
        (process_single_repo "svc-api" (RepoApiOutcome.branches exBranches))
        ⟨none, noRetry, none⟩ ["2025-03-04", "2025-03-05"] none).state.markers
      = [("2025-03-04", "svc-api"), ("2025-03-05", "svc-api")] ∧
    (handle_completed emptyOrchState (process_single_repo "repo-b" RepoApiOutcome.githubExc)
        ⟨none, noRetry, none⟩ ["2025-03-05"] none).state.markers = [] ∧
    (handle_completed emptyOrchState (process_single_repo "repo-c" RepoApiOutcome.rateLimitExc)
        ⟨none, noRetry, none⟩ ["2025-03-05"] none).state.markers = [] ∧
    process_single_repo "svc-api"
        (RepoApiOutcome.branches [BranchFetch.ok "main" [exC8], BranchFetch.err "dev" []])
      = process_single_repo "svc-api" (RepoApiOutcome.branches [BranchFetch.ok "main" [exC8]]) := by
  refine ⟨?_, ?_, ?_, ?_⟩
  · exact (marker_iff_repo_success.1 emptyOrchState
      (process_single_repo "svc-api" (RepoApiOutcome.branches exBranches))
      ⟨none, noRetry, none⟩ ["2025-03-04", "2025-03-05"] none (by decide) rfl).trans (by decide)
  · exact marker_iff_repo_success.2.1 emptyOrchState
      (process_single_repo "repo-b" RepoApiOutcome.githubExc)
      ⟨none, noRetry, none⟩ ["2025-03-05"] none rfl (by decide)
  · exact marker_iff_repo_success.2.2.1 emptyOrchState
      (process_single_repo "repo-c" RepoApiOutcome.rateLimitExc)
      ⟨none, noRetry, none⟩ ["2025-03-05"] none rfl rfl
  · exact marker_iff_repo_success.2.2.2 "svc-api" "dev" [BranchFetch.ok "main" [exC8]] []

/-- Claim C5: a repository failure of the quota-exceeded kind makes
the orchestrator invoke the Rate Limit Guard once and re-invoke the
collector exactly once inline; a successful retry merges its commits
and removes the recorded failure, a failed retry leaves the
repository in the failed list (final).  Failures of any other kind
trigger no guard call and no retry and the repository stays failed.
The last group fixes the error kinds produced by the collector. -/
theorem quota_retry_policy :
    (∀ (st : OrchState) (result : RepoResult) (env : StepEnv) (days : List String)
        (bsz : Option Nat), result.success = false → result.error = some "rate_limit" →
        (handle_completed st result env days bsz).guardCalls = 1 ∧
        (handle_completed st result env days bsz).retryCalls = 1 ∧
        (env.retryResult.success = true →
          (handle_completed st result env days bsz).state.failed_repos
            = removeFirst (st.failed_repos ++ [result]) result ∧
          (handle_completed st result env days bsz).state.user_commits
            = mergeUC st.user_commits env.retryResult.commits ∧
          (handle_completed st result env days bsz).state.batch_user_commits
            = mergeUC st.batch_user_commits env.retryResult.commits) ∧
        (env.retryResult.success = false →
          (handle_completed st result env days bsz).state.failed_repos
            = st.failed_repos ++ [result] ∧
          (handle_completed st result env days bsz).state.user_commits
            = st.user_commits)) ∧
    (∀ (st : OrchState) (result : RepoResult) (env : StepEnv) (days : List String)
        (bsz : Option Nat), result.success = false → result.error ≠ some "rate_limit" →
        (handle_completed st result env days bsz).guardCalls = 0 ∧
        (handle_completed st result env days bsz).retryCalls = 0 ∧
        (handle_completed st result env days bsz).state.failed_repos
          = st.failed_repos ++ [result] ∧
        (handle_completed st result env days bsz).state.user_commits = st.user_commits) ∧
    (∀ n : String,
        process_single_repo n RepoApiOutcome.rateLimitExc
          = { success := false, repo := n, commits := [], error := some "rate_limit" } ∧
        process_single_repo n RepoApiOutcome.githubExc
          = { success := false, repo := n, commits := [], error := some "github_api" } ∧
        process_single_repo n RepoApiOutcome.otherExc
          = { success := false, repo := n, commits := [], error := some "unexpected" }) := by
  refine ⟨?_, ?_, fun n => ⟨rfl, rfl, rfl⟩⟩
  · intro st result env days bsz hs herr
    refine ⟨?_, ?_, ?_, ?_⟩
    · by_cases hrr : env.retryResult.success = true
      · simp [handle_completed, hs, herr, hrr]
      · simp [handle_completed, hs, herr, hrr]
    · by_cases hrr : env.retryResult.success = true
      · simp [handle_completed, hs, herr, hrr]
      · simp [handle_completed, hs, herr, hrr]
    · intro hrr
      refine ⟨?_, ?_, ?_⟩ <;> simp [handle_completed, hs, herr, hrr]
    · intro hrr
      refine ⟨?_, ?_⟩ <;> simp [handle_completed, hs, herr, hrr]
  · intro st result env days bsz hs herr
    refine ⟨?_, ?_, ?_, ?_⟩ <;> simp [handle_completed, hs, herr]

theorem quota_retry_policy_witness :
    (handle_completed emptyOrchState
        (process_single_repo "r" RepoApiOutcome.rateLimitExc)
        ⟨none, process_single_repo "r" (RepoApiOutcome.branches exBranches), none⟩
        ["2025-03-05"] none).retryCalls = 1 ∧
    (handle_completed emptyOrchState
        (process_single_repo "r" RepoApiOutcome.rateLimitExc)
        ⟨none, noRetry, none⟩ ["2025-03-05"] none).state.failed_repos
      = [process_single_repo "r" RepoApiOutcome.rateLimitExc] ∧
    (handle_completed emptyOrchState
        (process_single_repo "r" RepoApiOutcome.githubExc)
        ⟨none, noRetry, none⟩ ["2025-03-05"] none).retryCalls = 0 ∧
    process_single_repo "r" RepoApiOutcome.rateLimitExc
      = { success := false, repo := "r", commits := [], error := some "rate_limit" } := by
  refine ⟨?_, ?_, ?_, ?_⟩
  · exact (quota_retry_policy.1 emptyOrchState
      (process_single_repo "r" RepoApiOutcome.rateLimitExc)
      ⟨none, process_single_repo "r" (RepoApiOutcome.branches exBranches), none⟩
      ["2025-03-05"] none rfl rfl).2.1
  · exact ((quota_retry_policy.1 emptyOrchState
      (process_single_repo "r" RepoApiOutcome.rateLimitExc)
      ⟨none, noRetry, none⟩ ["2025-03-05"] none rfl rfl).2.2.2 rfl).1.trans (by decide)
  · exact (quota_retry_policy.2.1 emptyOrchState
      (process_single_repo "r" RepoApiOutcome.githubExc)
      ⟨none, noRetry, none⟩ ["2025-03-05"] none rfl (by decide)).2.1
  · exact (quota_retry_policy.2.2 "r").1

/-- Claim C10: when the result is successful but the per-day marker
writes raise after k days, the exception is caught: the repository is
not added to the failed list, its commits are merged into the
run-wide structure (and into the batch structure, unless this step
flushed that batch to the writer), only the first k day markers
exist, and the step completes normally (the batch logic still runs).
A successful collection therefore does not guarantee its Completion
Markers exist. -/
theorem marker_failure_repo_still_successful (st : OrchState) (result : RepoResult)
    (env : StepEnv) (days : List String) (bsz : Option Nat) (k : Nat)
    (hs : result.success = true) (hmf : env.markerFailAfter = some k) :
    (handle_completed st result env days bsz).state.failed_repos = st.failed_repos ∧
    (handle_completed st result env days bsz).state.user_commits
      = mergeUC st.user_commits result.commits ∧
    (handle_completed st result env days bsz).state.markers
      = st.markers ++ (days.take k).map (fun d => (d, result.repo)) ∧
    (((handle_completed st result env days bsz).state.batch_user_commits
        = mergeUC st.batch_user_commits result.commits ∧
      (handle_completed st result env days bsz).uploadedBatches = []) ∨
     ((handle_completed st result env days bsz).state.batch_user_commits = [] ∧
      (handle_completed st result env days bsz).uploadedBatches
        = [mergeUC st.batch_user_commits result.commits])) := by
  simp only [handle_completed, hs, if_true]
  split
  · refine ⟨?_, ?_, ?_, Or.inr ⟨?_, ?_⟩⟩ <;> simp [applySuccess, writeMarkers, hmf]
  · refine ⟨?_, ?_, ?_, Or.inl ⟨?_, ?_⟩⟩ <;> simp [applySuccess, writeMarkers, hmf]

theorem marker_failure_repo_still_successful_witness :
    (handle_completed emptyOrchState
        (process_single_repo "svc-api" (RepoApiOutcome.branches exBranches))
        ⟨some 0, noRetry, none⟩ ["2025-03-05"] none).state.failed_repos = [] ∧
    (handle_completed emptyOrchState
        (process_single_repo "svc-api" (RepoApiOutcome.branches exBranches))
        ⟨some 0, noRetry, none⟩ ["2025-03-05"] none).state.markers = [] := by
  have h := marker_failure_repo_still_successful emptyOrchState
    (process_single_repo "svc-api" (RepoApiOutcome.branches exBranches))
    ⟨some 0, noRetry, none⟩ ["2025-03-05"] none 0 (by decide) rfl
  exact ⟨h.1.trans rfl, h.2.2.1.trans (by decide)⟩
